import Mathlib

/-!
Shallow embedding of the schedule-database change machinery of
rmf_traffic/schedule/Database.cpp and of the ROS time conversion of
rmf_traffic_ros2/convert_Time.cpp, together with theorems about the
relevance inspector, patch construction, the variant change record and
the time conversion.

Times and durations are modelled as integers counting nanoseconds.
Pointers are modelled as Option values (none = null).
-/

/-- A trajectory, opaque to the schedule core except for its two time
endpoints; the accessors return none when the trajectory is empty,
matching the pointer-returning accessors of the source API. -/
structure Trajectory where
  start_time : Option Int
  finish_time : Option Int
  deriving DecidableEq

/-- DeepOrShallowTrajectory from Database.cpp: either owns a deep copy
of a trajectory or borrows a pointer into the database.  The field
defaults mirror the in-class initializers of the source (null deep
pointer, null shallow pointer, is_deep = true). -/
structure DeepOrShallowTrajectory where
  deep : Option Trajectory := none
  shallow : Option Trajectory := none
  is_deep : Bool := true
  deriving DecidableEq

/-- DeepOrShallowTrajectory::get from Database.cpp. -/
def DeepOrShallowTrajectory.get (t : DeepOrShallowTrajectory) : Option Trajectory :=
  if t.is_deep then t.deep else t.shallow

/-- make_deep from Database.cpp: marks the record deep and stores a copy
of the pointee when the pointer is not null. -/
def make_deep (deep : Option Trajectory) : DeepOrShallowTrajectory :=
  { deep := deep, shallow := none, is_deep := true }

/-- make_shallow from Database.cpp: marks the record shallow and stores
the borrowed pointer itself. -/
def make_shallow (shallow : Option Trajectory) : DeepOrShallowTrajectory :=
  { deep := none, shallow := shallow, is_deep := false }

/-- The mode tag of a Database::Change (declared in the public header;
its six values are the ones assigned by the make_* functions of
Database.cpp). -/
inductive Change.Mode where
  | Insert
  | Interrupt
  | Delay
  | Replace
  | Erase
  | Cull
  deriving DecidableEq

/-- Payload of an Insert change (Database::Change::Insert::Implementation). -/
structure Change.Insert where
  trajectory : DeepOrShallowTrajectory := {}
  deriving DecidableEq

/-- Payload of an Interrupt change (Database::Change::Interrupt::Implementation). -/
structure Change.Interrupt where
  trajectory : DeepOrShallowTrajectory := {}
  original_id : Nat := 0
  delay : Int := 0
  deriving DecidableEq

/-- Payload of a Delay change (Database::Change::Delay::Implementation).
The source field named from is called from_time here because from is a
reserved word in Lean. -/
structure Change.Delay where
  original_id : Nat := 0
  from_time : Int := 0
  delay : Int := 0
  deriving DecidableEq

/-- Payload of a Replace change (Database::Change::Replace::Implementation). -/
structure Change.Replace where
  original_id : Nat := 0
  trajectory : DeepOrShallowTrajectory := {}
  deriving DecidableEq

/-- Payload of an Erase change (Database::Change::Erase::Implementation). -/
structure Change.Erase where
  original_id : Nat := 0
  deriving DecidableEq

/-- Payload of a Cull change (Database::Change::Cull::Implementation). -/
structure Change.Cull where
  culled : List Nat := []
  deriving DecidableEq

/-- Database::Change::Implementation from Database.cpp: a mode tag, one
payload slot per variant (default-constructed unless set), and the id of
the change.  The mode and id defaults stand for the uninitialized values
of the default-constructed C++ object; every constructor overwrites
them. -/
structure Change.Implementation where
  mode : Change.Mode := Change.Mode.Insert
  insert : Change.Insert := {}
  interrupt : Change.Interrupt := {}
  delay : Change.Delay := {}
  replace : Change.Replace := {}
  erase : Change.Erase := {}
  cull : Change.Cull := {}
  id : Nat := 0
  deriving DecidableEq

/-- Database::Change, a value type holding its implementation record. -/
structure Change where
  _pimpl : Change.Implementation := {}
  deriving DecidableEq

/-- Database::Change::Implementation::make: a change with the given mode
and id and default payloads. -/
def Change.Implementation.make (mode : Change.Mode) (id : Nat) : Change :=
  { _pimpl := { mode := mode, id := id } }

/-- Database::Change::Insert::Implementation::make_copy: owning payload. -/
def Change.Insert.make_copy (trajectory : Option Trajectory) : Change.Insert :=
  { trajectory := make_deep trajectory }

/-- Database::Change::Insert::Implementation::make_ref: borrowed payload. -/
def Change.Insert.make_ref (trajectory : Option Trajectory) : Change.Insert :=
  { trajectory := make_shallow trajectory }

/-- Database::Change::Interrupt::Implementation::make_copy. -/
def Change.Interrupt.make_copy (trajectory : Option Trajectory)
    (original_id : Nat) (delay : Int) : Change.Interrupt :=
  { trajectory := make_deep trajectory, original_id := original_id, delay := delay }

/-- Database::Change::Interrupt::Implementation::make_ref. -/
def Change.Interrupt.make_ref (trajectory : Option Trajectory)
    (original_id : Nat) (delay : Int) : Change.Interrupt :=
  { trajectory := make_shallow trajectory, original_id := original_id, delay := delay }

/-- Database::Change::Delay::Implementation::make. -/
def Change.Delay.make (original_id : Nat) (from_time : Int) (delay : Int) :
    Change.Delay :=
  { original_id := original_id, from_time := from_time, delay := delay }

/-- Database::Change::Replace::Implementation::make_copy. -/
def Change.Replace.make_copy (original_id : Nat) (trajectory : Option Trajectory) :
    Change.Replace :=
  { original_id := original_id, trajectory := make_deep trajectory }

/-- Database::Change::Replace::Implementation::make_ref. -/
def Change.Replace.make_ref (original_id : Nat) (trajectory : Option Trajectory) :
    Change.Replace :=
  { original_id := original_id, trajectory := make_shallow trajectory }

/-- Database::Change::Erase::Implementation::make. -/
def Change.Erase.make (original_id : Nat) : Change.Erase :=
  { original_id := original_id }

/-- Database::Change::Cull::Implementation::make. -/
def Change.Cull.make (culled : List Nat) : Change.Cull :=
  { culled := culled }

/-- Database::Change::make_insert: public constructor, owning payload. -/
def Change.make_insert (trajectory : Option Trajectory) (id : Nat) : Change :=
  let change := Change.Implementation.make Change.Mode.Insert id
  { change with _pimpl := { change._pimpl with insert := Change.Insert.make_copy trajectory } }

/-- Database::Change::Implementation::make_insert_ref: internal
constructor, borrowed payload, lifetime tied to the database. -/
def Change.Implementation.make_insert_ref (trajectory : Option Trajectory)
    (id : Nat) : Change :=
  let change := Change.Implementation.make Change.Mode.Insert id
  { change with _pimpl := { change._pimpl with insert := Change.Insert.make_ref trajectory } }

/-- Database::Change::make_interrupt. -/
def Change.make_interrupt (original_id : Nat)
    (interruption_trajectory : Option Trajectory) (delay : Int) (id : Nat) : Change :=
  let change := Change.Implementation.make Change.Mode.Interrupt id
  { change with _pimpl := { change._pimpl with
      interrupt := Change.Interrupt.make_copy interruption_trajectory original_id delay } }

/-- Database::Change::Implementation::make_interrupt_ref. -/
def Change.Implementation.make_interrupt_ref (original_id : Nat)
    (interruption_trajectory : Option Trajectory) (delay : Int) (id : Nat) : Change :=
  let change := Change.Implementation.make Change.Mode.Interrupt id
  { change with _pimpl := { change._pimpl with
      interrupt := Change.Interrupt.make_ref interruption_trajectory original_id delay } }

/-- Database::Change::make_delay. -/
def Change.make_delay (original_id : Nat) (from_time : Int) (delay : Int)
    (id : Nat) : Change :=
  let change := Change.Implementation.make Change.Mode.Delay id
  { change with _pimpl := { change._pimpl with
      delay := Change.Delay.make original_id from_time delay } }

/-- Database::Change::make_replace. -/
def Change.make_replace (original_id : Nat) (trajectory : Option Trajectory)
    (id : Nat) : Change :=
  let change := Change.Implementation.make Change.Mode.Replace id
  { change with _pimpl := { change._pimpl with
      replace := Change.Replace.make_copy original_id trajectory } }

/-- Database::Change::Implementation::make_replace_ref. -/
def Change.Implementation.make_replace_ref (original_id : Nat)
    (trajectory : Option Trajectory) (id : Nat) : Change :=
  let change := Change.Implementation.make Change.Mode.Replace id
  { change with _pimpl := { change._pimpl with
      replace := Change.Replace.make_ref original_id trajectory } }

/-- Database::Change::make_erase. -/
def Change.make_erase (original_id : Nat) (id : Nat) : Change :=
  let change := Change.Implementation.make Change.Mode.Erase id
  { change with _pimpl := { change._pimpl with erase := Change.Erase.make original_id } }

/-- Database::Change::make_cull. -/
def Change.make_cull (culled : List Nat) (id : Nat) : Change :=
  let change := Change.Implementation.make Change.Mode.Cull id
  { change with _pimpl := { change._pimpl with cull := Change.Cull.make culled } }

/-- Database::Change::get_mode. -/
def Change.get_mode (c : Change) : Change.Mode :=
  c._pimpl.mode

/-- Database::Change::id. -/
def Change.id (c : Change) : Nat :=
  c._pimpl.id

/-- Database::Change::insert: the payload pointer, non-null exactly when
the mode is Insert. -/
def Change.insert (c : Change) : Option Change.Insert :=
  if c._pimpl.mode = Change.Mode.Insert then some c._pimpl.insert else none

/-- Database::Change::interrupt. -/
def Change.interrupt (c : Change) : Option Change.Interrupt :=
  if c._pimpl.mode = Change.Mode.Interrupt then some c._pimpl.interrupt else none

/-- Database::Change::delay. -/
def Change.delay (c : Change) : Option Change.Delay :=
  if c._pimpl.mode = Change.Mode.Delay then some c._pimpl.delay else none

/-- Database::Change::replace. -/
def Change.replace (c : Change) : Option Change.Replace :=
  if c._pimpl.mode = Change.Mode.Replace then some c._pimpl.replace else none

/-- Database::Change::erase. -/
def Change.erase (c : Change) : Option Change.Erase :=
  if c._pimpl.mode = Change.Mode.Erase then some c._pimpl.erase else none

/-- Database::Change::cull. -/
def Change.cull (c : Change) : Option Change.Cull :=
  if c._pimpl.mode = Change.Mode.Cull then some c._pimpl.cull else none

/-- True when some trajectory payload of the change is held in the
borrowed (shallow) form rather than the owning (deep) form. -/
def Change.has_borrowed_trajectory (c : Change) : Bool :=
  (match c.insert with
   | some i => !i.trajectory.is_deep
   | none => false) ||
  (match c.interrupt with
   | some i => !i.trajectory.is_deep
   | none => false) ||
  (match c.replace with
   | some r => !r.trajectory.is_deep
   | none => false)

/-- Modelled from the spec: the Entry lineage node is declared in
ViewerInternal.hpp, which is not among the inspected sources; its
attributes (version, trajectory, change record, succeeds and
succeeded_by links) are given in the spec's data model and used
throughout the inspected inspector code.  A lineage is embedded as a
list of entries in succession order (root first): the succeeds link of
the entry at position i points to position i-1 (none at the root) and
the succeeded_by link points to position i+1 (none at the head), so an
entry pointer is a position into the list. -/
structure Entry where
  version : Nat
  trajectory : Trajectory
  change : Change
  deriving DecidableEq

/-- get_last_known_ancestor from Database.cpp: starting at the given
entry, walk the succeeds links while the version is still greater than
last_known_version; return the first entry whose version is at most
last_known_version (as its position and value, modelling the returned
pointer), or none when the walk runs off the root. -/
def get_last_known_ancestor (lineage : List Entry) (idx : Nat)
    (last_known_version : Nat) : Option (Nat × Entry) :=
  match idx, lineage[idx]? with
  | _, none => none
  | 0, some check =>
    if last_known_version < check.version then none
    else some (0, check)
  | i + 1, some check =>
    if last_known_version < check.version then
      get_last_known_ancestor lineage i last_known_version
    else
      some (i + 1, check)

/-- The emission loop of ChangeRelevanceInspector::inspect: starting at
position r (the successor of the last known ancestor), walk the
succeeded_by links to the end of the lineage, emitting the stored change
record of every entry passed.  In the list embedding the walk visits
positions r, r+1, ... up to the last entry, so it emits the stored
changes of the dropped suffix in order. -/
def emit_succeeding_changes (lineage : List Entry) (r : Nat) : List Change :=
  (lineage.drop r).map fun record => record.change

/-- internal::ChangeRelevanceInspector from Database.cpp: an optional
cursor (null pointer modelled as none) and the accumulated list of
relevant changes. -/
structure ChangeRelevanceInspector where
  after_version : Option Nat := none
  relevant_changes : List Change := []
  deriving DecidableEq

/-- ChangeRelevanceInspector::after from Database.cpp. -/
def ChangeRelevanceInspector.after (self : ChangeRelevanceInspector)
    (a : Option Nat) : ChangeRelevanceInspector :=
  { self with after_version := a }

/-- ChangeRelevanceInspector::inspect (predicate overload) from
Database.cpp.  The inspected entry is the position idx of the embedded
lineage; the state mutation of the C++ void member function is modelled
by returning the updated inspector. -/
def ChangeRelevanceInspector.inspect (self : ChangeRelevanceInspector)
    (lineage : List Entry) (idx : Nat) (relevant : Entry → Bool) :
    ChangeRelevanceInspector :=
  match lineage[idx]? with
  | none => self
  | some entry =>
    if idx + 1 < lineage.length then
      self
    else if self.after_version.any (fun a => entry.version ≤ a) then
      self
    else
      let needed := relevant entry
      if needed then
        let record_changes_from : Option (Nat × Entry) :=
          match self.after_version with
          | none => none
          | some av =>
            match get_last_known_ancestor lineage idx av with
            | none => none
            | some check =>
              if relevant check.2 then some check else none
        match record_changes_from with
        | some check =>
          { self with relevant_changes :=
              self.relevant_changes ++ emit_succeeding_changes lineage (check.1 + 1) }
        | none =>
          { self with relevant_changes :=
              self.relevant_changes ++
                [Change.Implementation.make_insert_ref (some entry.trajectory) entry.version] }
      else
        match self.after_version with
        | none => self
        | some av =>
          match get_last_known_ancestor lineage idx av with
          | none => self
          | some check =>
            if relevant check.2 then
              { self with relevant_changes :=
                  self.relevant_changes ++
                    [Change.make_erase check.2.version entry.version] }
            else
              self

/-- The relevance predicate of the time-window overload of
ChangeRelevanceInspector::inspect from Database.cpp: reject when a lower
bound is given and the finish time is before it, reject when an upper
bound is given and the start time is after it, accept otherwise.  The
source asserts that the trajectory is non-empty (start_time not null);
the out-of-contract empty case is modelled as false. -/
def timeWindowRelevant (lower_time_bound upper_time_bound : Option Int)
    (e : Entry) : Bool :=
  match e.trajectory.start_time, e.trajectory.finish_time with
  | some s, some f =>
    if lower_time_bound.any (fun lo => f < lo) then
      false
    else if upper_time_bound.any (fun up => up < s) then
      false
    else
      true
  | _, _ => false

/-- The time-window overload of ChangeRelevanceInspector::inspect from
Database.cpp: delegates to the predicate overload with the time-window
predicate. -/
def ChangeRelevanceInspector.inspect_timewindow (self : ChangeRelevanceInspector)
    (lineage : List Entry) (idx : Nat)
    (lower_time_bound upper_time_bound : Option Int) : ChangeRelevanceInspector :=
  self.inspect lineage idx (timeWindowRelevant lower_time_bound upper_time_bound)

/-- Database::Patch: the stored change vector and the latest version
captured at construction. -/
structure Patch where
  changes : List Change
  latest_version : Nat
  deriving DecidableEq

/-- Iterating a Patch from begin to end yields the stored changes in
order. -/
def Patch.toList (p : Patch) : List Change :=
  p.changes

/-- Database::Patch::size. -/
def Patch.size (p : Patch) : Nat :=
  p.changes.length

/-- What the std sort call of Database::Patch::Implementation guarantees
about the stored vector: the comparator is c1.id lt c2.id, so the result
is ordered with no later element of smaller id; the relative order of
elements with equal ids is unspecified by the source. -/
def sortedByChangeId (l : List Change) : Prop :=
  l.Pairwise fun c1 c2 => c1.id ≤ c2.id

/-- Database::Patch construction (Patch::Implementation from
Database.cpp): the stored changes are the given changes reordered by the
std sort call — a permutation ordered ascending by id — and the stored
latest_version is the given one.  Relational because std sort leaves the
order of equal elements unspecified. -/
def patchConstructionSpec (input : List Change) (latest : Nat) (p : Patch) : Prop :=
  p.changes.Perm input ∧ sortedByChangeId p.changes ∧ p.latest_version = latest

/-- Modelled from the spec: the stable ascending-by-id sort that the
spec asserts for Patch construction (stability with respect to
insertion order for equal ids). -/
def stableSortByChangeId (l : List Change) : List Change :=
  List.insertionSort (fun c1 c2 => c1.id ≤ c2.id) l

/-- Modelled from the spec: Database::changes runs the relevance
inspector over every active lineage head — the driver template
(Viewer::Implementation::inspect, declared in ViewerInternal.hpp) is not
among the inspected sources — and wraps the inspector's accumulated
relevant_changes together with the database's latest_version in a
Patch. -/
def databaseChangesSpec (heads : List (List Entry)) (after_v : Option Nat)
    (relevant : Entry → Bool) (latest : Nat) (p : Patch) : Prop :=
  patchConstructionSpec
    (heads.foldl
      (fun (ins : ChangeRelevanceInspector) lineage =>
        ins.inspect lineage (lineage.length - 1) relevant)
      { after_version := after_v, relevant_changes := [] }).relevant_changes
    latest p

/-- convert from convert_Time.cpp.  A Time is modelled by its
nanoseconds-since-epoch count; the assertion that the count is positive
is modelled by returning none when it fails; the sec and nanosec fields
of the resulting message are modelled as unbounded integers (the message
type is external to this repository).  The duration_cast to seconds
truncates toward zero, and nanosec is the remainder after subtracting
the seconds. -/
def convert (time : Int) : Option (Int × Int) :=
  if 0 < time then
    let sec := time.tdiv 1000000000
    let nanosec := time - sec * 1000000000
    some (sec, nanosec)
  else
    none

/-- A concrete non-empty trajectory over times 0 to 10. -/
def exTraj1 : Trajectory :=
  { start_time := some 0, finish_time := some 10 }

/-- A concrete non-empty trajectory over times 5 to 20. -/
def exTraj2 : Trajectory :=
  { start_time := some 5, finish_time := some 20 }

/-- A concrete non-empty trajectory over times 8 to 30. -/
def exTraj3 : Trajectory :=
  { start_time := some 8, finish_time := some 30 }

/-- The stored change of the root entry of the concrete lineage. -/
def exChange1 : Change :=
  Change.make_insert (some exTraj1) 1

/-- The stored change of the second entry of the concrete lineage. -/
def exChange2 : Change :=
  Change.make_replace 1 (some exTraj2) 2

/-- The stored change of the head entry of the concrete lineage. -/
def exChange3 : Change :=
  Change.make_replace 2 (some exTraj3) 3

/-- Root entry of the concrete lineage, version 1. -/
def exEntry1 : Entry :=
  { version := 1, trajectory := exTraj1, change := exChange1 }

/-- Middle entry of the concrete lineage, version 2. -/
def exEntry2 : Entry :=
  { version := 2, trajectory := exTraj2, change := exChange2 }

/-- Head entry of the concrete lineage, version 3. -/
def exEntry3 : Entry :=
  { version := 3, trajectory := exTraj3, change := exChange3 }

/-- A concrete three-entry lineage with strictly ascending versions. -/
def exLineage : List Entry :=
  [exEntry1, exEntry2, exEntry3]

/-- Two distinct changes sharing the id 5, for exercising tie behavior
of the patch sort. -/
def tieChangeA : Change :=
  Change.make_erase 10 5

/-- Second change with id 5, distinct from tieChangeA. -/
def tieChangeB : Change :=
  Change.make_erase 20 5

instance : IsTotal Change fun c1 c2 => c1.id ≤ c2.id :=
  ⟨fun a b => Nat.le_total a.id b.id⟩

instance : IsTrans Change fun c1 c2 => c1.id ≤ c2.id :=
  ⟨fun _ _ _ h1 h2 => Nat.le_trans h1 h2⟩

instance : IsAntisymm Change fun c1 c2 => c1.id < c2.id :=
  ⟨fun _ _ h1 h2 => absurd h2 (Nat.lt_asymm h1)⟩

/-- Unfolding get_last_known_ancestor at the root of the chain. -/
theorem glka_zero_eq {lineage : List Entry} {v : Nat} {check : Entry}
    (h : lineage[0]? = some check) :
    get_last_known_ancestor lineage 0 v =
      if v < check.version then none else some (0, check) := by
  unfold get_last_known_ancestor
  rw [h]

/-- Unfolding get_last_known_ancestor one step along the succeeds link. -/
theorem glka_succ_eq {lineage : List Entry} {i v : Nat} {check : Entry}
    (h : lineage[i + 1]? = some check) :
    get_last_known_ancestor lineage (i + 1) v =
      if v < check.version then get_last_known_ancestor lineage i v
      else some (i + 1, check) := by
  conv_lhs => unfold get_last_known_ancestor
  rw [h]

/-- Characterization of get_last_known_ancestor when it finds an
ancestor: it returns position j holding entry e exactly when j is at or
before the starting position, e is stored there with version at most v,
and every entry strictly between j and the start has version above v. -/
theorem glka_some_iff {lineage : List Entry} {v : Nat} :
    ∀ {idx : Nat}, idx < lineage.length → ∀ {j : Nat} {e : Entry},
      (get_last_known_ancestor lineage idx v = some (j, e) ↔
        (j ≤ idx ∧ lineage[j]? = some e ∧ e.version ≤ v ∧
          ∀ k, j < k → k ≤ idx → ∀ ek, lineage[k]? = some ek → v < ek.version)) := by
  intro idx
  induction idx with
  | zero =>
    intro h j e
    have h0 := List.getElem?_eq_getElem h
    rw [glka_zero_eq h0]
    by_cases hv : v < lineage[0].version
    · rw [if_pos hv]
      constructor
      · intro hg
        exact Option.noConfusion hg
      · rintro ⟨hj, hje, hev, _⟩
        have hj0 : j = 0 := Nat.le_zero.mp hj
        subst hj0
        have he : lineage[0] = e := Option.some.inj (h0.symm.trans hje)
        rw [he] at hv
        omega
    · rw [if_neg hv]
      constructor
      · intro hg
        have hpair := Option.some.inj hg
        have hj : 0 = j := congrArg Prod.fst hpair
        have he : lineage[0] = e := congrArg Prod.snd hpair
        subst hj
        refine ⟨Nat.le_refl 0, ?_, ?_, ?_⟩
        · rw [h0, he]
        · rw [← he]
          omega
        · intro k hk1 hk2
          omega
      · rintro ⟨hj, hje, _, _⟩
        have hj0 : j = 0 := Nat.le_zero.mp hj
        subst hj0
        have he : lineage[0] = e := Option.some.inj (h0.symm.trans hje)
        rw [he]
  | succ i ih =>
    intro h j e
    have hlt : i < lineage.length := Nat.lt_of_succ_lt h
    have hi1 := List.getElem?_eq_getElem h
    rw [glka_succ_eq hi1]
    by_cases hv : v < lineage[i + 1].version
    · rw [if_pos hv, ih hlt]
      constructor
      · rintro ⟨hj, hje, hev, hbet⟩
        refine ⟨Nat.le_succ_of_le hj, hje, hev, ?_⟩
        intro k hk1 hk2 ek hek
        rcases Nat.lt_or_ge k (i + 1) with hk | hk
        · exact hbet k hk1 (Nat.lt_succ_iff.mp hk) ek hek
        · have hke : k = i + 1 := Nat.le_antisymm hk2 hk
          subst hke
          have hrw : lineage[i + 1] = ek := Option.some.inj (hi1.symm.trans hek)
          rw [← hrw]
          exact hv
      · rintro ⟨hj, hje, hev, hbet⟩
        have hji : j ≤ i := by
          rcases Nat.lt_or_ge j (i + 1) with hk | hk
          · omega
          · exfalso
            have hjeq : j = i + 1 := Nat.le_antisymm hj hk
            subst hjeq
            have hrw : lineage[i + 1] = e := Option.some.inj (hi1.symm.trans hje)
            rw [← hrw] at hev
            omega
        exact ⟨hji, hje, hev, fun k h1 h2 ek hek =>
          hbet k h1 (Nat.le_succ_of_le h2) ek hek⟩
    · rw [if_neg hv]
      constructor
      · intro hg
        have hpair := Option.some.inj hg
        have hj : i + 1 = j := congrArg Prod.fst hpair
        have he : lineage[i + 1] = e := congrArg Prod.snd hpair
        subst hj
        refine ⟨Nat.le_refl _, ?_, ?_, ?_⟩
        · rw [hi1, he]
        · rw [← he]
          omega
        · intro k hk1 hk2
          omega
      · rintro ⟨hj, hje, hev, hbet⟩
        have hjeq : j = i + 1 := by
          by_contra hne
          have hji : j < i + 1 := Nat.lt_of_le_of_ne hj hne
          have := hbet (i + 1) hji (Nat.le_refl _) lineage[i + 1] hi1
          omega
        subst hjeq
        have hrw : lineage[i + 1] = e := Option.some.inj (hi1.symm.trans hje)
        rw [hrw]

/-- Characterization of get_last_known_ancestor when it finds nothing:
every entry from the start of the walk down to the root has version
above v. -/
theorem glka_none_iff {lineage : List Entry} {v : Nat} :
    ∀ {idx : Nat}, idx < lineage.length →
      (get_last_known_ancestor lineage idx v = none ↔
        ∀ k, k ≤ idx → ∀ ek, lineage[k]? = some ek → v < ek.version) := by
  intro idx
  induction idx with
  | zero =>
    intro h
    have h0 := List.getElem?_eq_getElem h
    rw [glka_zero_eq h0]
    by_cases hv : v < lineage[0].version
    · rw [if_pos hv]
      constructor
      · intro _ k hk ek hek
        have hk0 : k = 0 := Nat.le_zero.mp hk
        subst hk0
        have hrw : lineage[0] = ek := Option.some.inj (h0.symm.trans hek)
        rw [← hrw]
        exact hv
      · intro _
        rfl
    · rw [if_neg hv]
      constructor
      · intro hg
        exact Option.noConfusion hg
      · intro hall
        have := hall 0 (Nat.le_refl 0) lineage[0] h0
        omega
  | succ i ih =>
    intro h
    have hlt : i < lineage.length := Nat.lt_of_succ_lt h
    have hi1 := List.getElem?_eq_getElem h
    rw [glka_succ_eq hi1]
    by_cases hv : v < lineage[i + 1].version
    · rw [if_pos hv, ih hlt]
      constructor
      · intro hall k hk ek hek
        rcases Nat.lt_or_ge k (i + 1) with hk2 | hk2
        · exact hall k (Nat.lt_succ_iff.mp hk2) ek hek
        · have hke : k = i + 1 := Nat.le_antisymm hk hk2
          subst hke
          have hrw : lineage[i + 1] = ek := Option.some.inj (hi1.symm.trans hek)
          rw [← hrw]
          exact hv
      · intro hall k hk ek hek
        exact hall k (Nat.le_succ_of_le hk) ek hek
    · rw [if_neg hv]
      constructor
      · intro hg
        exact Option.noConfusion hg
      · intro hall
        have := hall (i + 1) (Nat.le_refl _) lineage[i + 1] hi1
        omega

/-- C4: get_last_known_ancestor returns the first entry reached by
walking the succeeds links from the starting entry whose version is at
most the bound — the most recent ancestor not newer than the bound —
and returns none when every entry on the chain is newer.  Precisely: it
returns position j holding e exactly when j is at or before the start,
e is stored there with version at most the bound, and every entry
strictly between j and the start is newer than the bound (the
characterization places no constraint on entries older than j, so the
result never depends on ancestors beyond the first qualifying one); and
it returns none exactly when every entry from the start to the root is
newer than the bound. -/
theorem get_last_known_ancestor_spec (lineage : List Entry) (v idx : Nat)
    (h : idx < lineage.length) :
    (∀ j e, get_last_known_ancestor lineage idx v = some (j, e) ↔
        (j ≤ idx ∧ lineage[j]? = some e ∧ e.version ≤ v ∧
          ∀ k, j < k → k ≤ idx → ∀ ek, lineage[k]? = some ek → v < ek.version))
    ∧ (get_last_known_ancestor lineage idx v = none ↔
        ∀ k, k ≤ idx → ∀ ek, lineage[k]? = some ek → v < ek.version) :=
  ⟨fun _ _ => glka_some_iff h, glka_none_iff h⟩

/-- Witness for C4: on the concrete three-entry lineage with bound 2 the
walk from the head stops at the middle entry (version 2), the most
recent one not above the bound. -/
theorem get_last_known_ancestor_spec_witness :
    2 < exLineage.length ∧
      get_last_known_ancestor exLineage 2 2 = some (1, exEntry2) := by
  refine ⟨by decide, ?_⟩
  refine ((get_last_known_ancestor_spec exLineage 2 2 (by decide)).1 1 exEntry2).mpr
    ⟨by decide, by decide, by decide, ?_⟩
  intro k hk1 hk2 ek hek
  have hk : k = 2 := by omega
  subst hk
  have : exEntry3 = ek := Option.some.inj ((by decide : exLineage[2]? = some exEntry3).symm.trans hek)
  rw [← this]
  decide

/-- Claim C8: ChangeRelevanceInspector::inspect appends no change — the
inspector is returned unchanged — whenever the inspected entry has a
successor, or the cursor is set and the entry's version is at most the
cursor. -/
theorem inspect_skips_nonhead_or_seen (self : ChangeRelevanceInspector)
    (lineage : List Entry) (idx : Nat) (entry : Entry) (relevant : Entry → Bool)
    (hentry : lineage[idx]? = some entry)
    (h : idx + 1 < lineage.length ∨ ∃ a, self.after_version = some a ∧ entry.version ≤ a) :
    self.inspect lineage idx relevant = self := by
  rcases h with h | ⟨a, ha, hle⟩
  · simp [ChangeRelevanceInspector.inspect, hentry, h]
  · simp only [ChangeRelevanceInspector.inspect, hentry, ha, Option.any_some]
    by_cases h1 : idx + 1 < lineage.length
    · rw [if_pos h1]
    · rw [if_neg h1, if_pos (by simpa using hle)]

/-- Claim C1: on an active head (no successor), with the cursor set, the
head newer than the cursor and relevant, and the most recent ancestor at
or below the cursor present and also relevant, inspect appends exactly
the stored change records of every entry strictly after that ancestor up
to and including the head, in succession order — ascending version order
whenever the lineage's versions ascend — and appends no synthesized
Insert. -/
theorem inspect_transmits_history (self : ChangeRelevanceInspector)
    (lineage : List Entry) (idx j : Nat) (entry aent : Entry) (a : Nat)
    (relevant : Entry → Bool)
    (hlen : idx + 1 = lineage.length)
    (hentry : lineage[idx]? = some entry)
    (hafter : self.after_version = some a)
    (hgt : a < entry.version)
    (hrel : relevant entry = true)
    (hj : j ≤ idx)
    (haent : lineage[j]? = some aent)
    (hale : aent.version ≤ a)
    (hbet : ∀ k, j < k → k ≤ idx → ∀ ek, lineage[k]? = some ek → a < ek.version)
    (harel : relevant aent = true) :
    self.inspect lineage idx relevant =
      { self with relevant_changes :=
          self.relevant_changes ++ (lineage.drop (j + 1)).map fun record => record.change }
    ∧ ((lineage.map fun x => x.version).Pairwise (fun x y => x < y) →
        ((lineage.drop (j + 1)).map fun x => x.version).Pairwise fun x y => x < y) := by
  have hglka : get_last_known_ancestor lineage idx a = some (j, aent) :=
    (glka_some_iff (by omega)).mpr ⟨hj, haent, hale, hbet⟩
  constructor
  · simp only [ChangeRelevanceInspector.inspect, hentry, hafter, Option.any_some]
    rw [if_neg (by omega : ¬ idx + 1 < lineage.length)]
    rw [if_neg (by simp; omega)]
    rw [hrel]
    simp only [if_true, hglka, harel, emit_succeeding_changes]
  · intro hasc
    have hsub : ((lineage.drop (j + 1)).map fun x => x.version).Sublist
        (lineage.map fun x => x.version) :=
      (List.drop_sublist (j + 1) lineage).map _
    exact List.Pairwise.sublist hsub hasc

/-- Claim C2: on an active head that is relevant, when the cursor is
unset, or no entry on the chain is at or below the cursor, or the most
recent such ancestor is not relevant, inspect appends exactly one
synthesized Insert carrying the head's trajectory and bearing the head's
version as id, and nothing else. -/
theorem inspect_synthesizes_insert (self : ChangeRelevanceInspector)
    (lineage : List Entry) (idx : Nat) (entry : Entry) (relevant : Entry → Bool)
    (hlen : idx + 1 = lineage.length)
    (hentry : lineage[idx]? = some entry)
    (hrel : relevant entry = true)
    (hcase : self.after_version = none ∨
      ∃ a, self.after_version = some a ∧
        ((∀ k, k ≤ idx → ∀ ek, lineage[k]? = some ek → a < ek.version) ∨
         ∃ j aent, j ≤ idx ∧ lineage[j]? = some aent ∧ aent.version ≤ a ∧
           (∀ k, j < k → k ≤ idx → ∀ ek, lineage[k]? = some ek → a < ek.version) ∧
           relevant aent = false)) :
    self.inspect lineage idx relevant =
      { self with relevant_changes := self.relevant_changes ++
          [Change.Implementation.make_insert_ref (some entry.trajectory) entry.version] }
    ∧ (Change.Implementation.make_insert_ref (some entry.trajectory) entry.version).id
        = entry.version
    ∧ ((Change.Implementation.make_insert_ref (some entry.trajectory) entry.version).insert).map
        (fun p => p.trajectory.get) = some (some entry.trajectory) := by
  refine ⟨?_, rfl, rfl⟩
  rcases hcase with hnone | ⟨a, hafter, hno | ⟨j, aent, hj, haent, hale, hbet, harel⟩⟩
  · simp only [ChangeRelevanceInspector.inspect, hentry, hnone, Option.any_none]
    rw [if_neg (by omega : ¬ idx + 1 < lineage.length)]
    rw [if_neg (by simp)]
    rw [hrel]
    simp only [if_true]
  · have hgt : a < entry.version := hno idx (by omega) entry hentry
    have hglka : get_last_known_ancestor lineage idx a = none :=
      (glka_none_iff (by omega)).mpr hno
    simp only [ChangeRelevanceInspector.inspect, hentry, hafter, Option.any_some]
    rw [if_neg (by omega : ¬ idx + 1 < lineage.length)]
    rw [if_neg (by simp; omega)]
    rw [hrel]
    simp only [if_true, hglka]
  · have hjlt : j < idx := by
      rcases Nat.lt_or_ge j idx with hk | hk
      · exact hk
      · exfalso
        have hjeq : j = idx := Nat.le_antisymm hj hk
        subst hjeq
        have hae : entry = aent := Option.some.inj (hentry.symm.trans haent)
        rw [← hae] at harel
        rw [hrel] at harel
        exact Bool.noConfusion harel
    have hgt : a < entry.version := hbet idx hjlt (by omega) entry hentry
    have hglka : get_last_known_ancestor lineage idx a = some (j, aent) :=
      (glka_some_iff (by omega)).mpr ⟨hj, haent, hale, hbet⟩
    simp only [ChangeRelevanceInspector.inspect, hentry, hafter, Option.any_some]
    rw [if_neg (by omega : ¬ idx + 1 < lineage.length)]
    rw [if_neg (by simp; omega)]
    rw [hrel]
    simp only [if_true, hglka, harel]
    simp

/-- Claim C3: on an active head that is not relevant: when the cursor is
set and the most recent ancestor at or below it exists and is relevant,
inspect appends exactly one Erase with the ancestor's version as
original_id, tagged with the head's version as id; when the cursor is
unset, no such ancestor exists, or the ancestor is not relevant, inspect
appends nothing. -/
theorem inspect_irrelevant_head (self : ChangeRelevanceInspector)
    (lineage : List Entry) (idx : Nat) (entry : Entry) (relevant : Entry → Bool)
    (hlen : idx + 1 = lineage.length)
    (hentry : lineage[idx]? = some entry)
    (hrel : relevant entry = false) :
    (∀ a j aent, self.after_version = some a → j ≤ idx → lineage[j]? = some aent →
        aent.version ≤ a →
        (∀ k, j < k → k ≤ idx → ∀ ek, lineage[k]? = some ek → a < ek.version) →
        relevant aent = true →
        self.inspect lineage idx relevant =
          { self with relevant_changes := self.relevant_changes ++
              [Change.make_erase aent.version entry.version] })
    ∧ (self.after_version = none → self.inspect lineage idx relevant = self)
    ∧ (∀ a, self.after_version = some a →
        (∀ k, k ≤ idx → ∀ ek, lineage[k]? = some ek → a < ek.version) →
        self.inspect lineage idx relevant = self)
    ∧ (∀ a j aent, self.after_version = some a → j ≤ idx → lineage[j]? = some aent →
        aent.version ≤ a →
        (∀ k, j < k → k ≤ idx → ∀ ek, lineage[k]? = some ek → a < ek.version) →
        relevant aent = false →
        self.inspect lineage idx relevant = self) := by
  refine ⟨?_, ?_, ?_, ?_⟩
  · intro a j aent hafter hj haent hale hbet harel
    have hjlt : j < idx := by
      rcases Nat.lt_or_ge j idx with hk | hk
      · exact hk
      · exfalso
        have hjeq : j = idx := Nat.le_antisymm hj hk
        subst hjeq
        have hae : entry = aent := Option.some.inj (hentry.symm.trans haent)
        rw [← hae] at harel
        rw [hrel] at harel
        exact Bool.noConfusion harel
    have hgt : a < entry.version := hbet idx hjlt (by omega) entry hentry
    have hglka : get_last_known_ancestor lineage idx a = some (j, aent) :=
      (glka_some_iff (by omega)).mpr ⟨hj, haent, hale, hbet⟩
    simp only [ChangeRelevanceInspector.inspect, hentry, hafter, Option.any_some]
    rw [if_neg (by omega : ¬ idx + 1 < lineage.length)]
    rw [if_neg (by simp; omega)]
    rw [hrel]
    simp only [Bool.false_eq_true, if_false, hglka, harel, if_true]
  · intro hafter
    simp only [ChangeRelevanceInspector.inspect, hentry, hafter, Option.any_none]
    rw [if_neg (by omega : ¬ idx + 1 < lineage.length)]
    rw [if_neg (by simp)]
    rw [hrel]
    simp
  · intro a hafter hno
    have hgt : a < entry.version := hno idx (by omega) entry hentry
    have hglka : get_last_known_ancestor lineage idx a = none :=
      (glka_none_iff (by omega)).mpr hno
    simp only [ChangeRelevanceInspector.inspect, hentry, hafter, Option.any_some]
    rw [if_neg (by omega : ¬ idx + 1 < lineage.length)]
    rw [if_neg (by simp; omega)]
    rw [hrel]
    simp only [Bool.false_eq_true, if_false, hglka]
  · intro a j aent hafter hj haent hale hbet harel
    by_cases hguard : entry.version ≤ a
    · have hjidx : j = idx := by
        by_contra hne
        have hjlt : j < idx := Nat.lt_of_le_of_ne hj hne
        have := hbet idx hjlt (by omega) entry hentry
        omega
      simp only [ChangeRelevanceInspector.inspect, hentry, hafter, Option.any_some]
      by_cases h1 : idx + 1 < lineage.length
      · rw [if_pos h1]
      · rw [if_neg h1, if_pos (by simpa using hguard)]
    · have hjlt : j < idx := by
        rcases Nat.lt_or_ge j idx with hk | hk
        · exact hk
        · exfalso
          have hjeq : j = idx := Nat.le_antisymm hj hk
          subst hjeq
          have hae : entry = aent := Option.some.inj (hentry.symm.trans haent)
          rw [← hae] at hale
          omega
      have hglka : get_last_known_ancestor lineage idx a = some (j, aent) :=
        (glka_some_iff (by omega)).mpr ⟨hj, haent, hale, hbet⟩
      simp only [ChangeRelevanceInspector.inspect, hentry, hafter, Option.any_some]
      rw [if_neg (by omega : ¬ idx + 1 < lineage.length)]
      rw [if_neg (by simpa using hguard)]
      rw [hrel]
      simp only [Bool.false_eq_true, if_false, hglka, harel]

/-- Claim C6: the time-window form of inspect judges an entry relevant
exactly when (if a lower bound is given) the trajectory's finish time is
at least the bound and (if an upper bound is given) the start time is at
most the bound; with both bounds equal it accepts exactly the
trajectories whose time extent contains that instant; and the overload
delegates to the generic inspect with this predicate. -/
theorem time_window_relevance_spec (lower upper : Option Int) (e : Entry) (s f : Int)
    (hs : e.trajectory.start_time = some s)
    (hf : e.trajectory.finish_time = some f) :
    (timeWindowRelevant lower upper e = true ↔
      ((∀ lo, lower = some lo → lo ≤ f) ∧ ∀ up, upper = some up → s ≤ up))
    ∧ (∀ t : Int, timeWindowRelevant (some t) (some t) e = true ↔ s ≤ t ∧ t ≤ f)
    ∧ ∀ (self : ChangeRelevanceInspector) (lineage : List Entry) (idx : Nat),
        self.inspect_timewindow lineage idx lower upper =
          self.inspect lineage idx (timeWindowRelevant lower upper) := by
  refine ⟨?_, ?_, fun _ _ _ => rfl⟩
  · rcases lower with _ | lo <;> rcases upper with _ | up <;>
      simp [timeWindowRelevant, hs, hf, Option.any_none, Option.any_some]
  · intro t
    simp [timeWindowRelevant, hs, hf, Option.any_some]
    omega

/-- Claim C9 (code bug): convert asserts that the nanosecond count is
strictly positive, so it aborts — modelled as none — at the in-contract
count 0, the UNIX epoch itself; for every strictly positive count d it
returns sec = d divided by one billion truncating and nanosec equal to
the remainder d - sec * one billion, which satisfy sec * one billion +
nanosec = d and 0 ≤ nanosec < one billion. -/
theorem convert_time_formula :
    convert 0 = none
    ∧ ∀ d : Int, 0 < d →
        convert d = some (d.tdiv 1000000000, d - d.tdiv 1000000000 * 1000000000)
        ∧ d.tdiv 1000000000 = d / 1000000000
        ∧ d.tdiv 1000000000 * 1000000000 + (d - d.tdiv 1000000000 * 1000000000) = d
        ∧ 0 ≤ d - d.tdiv 1000000000 * 1000000000
        ∧ d - d.tdiv 1000000000 * 1000000000 < 1000000000 := by
  constructor
  · decide
  · intro d hd
    have htd : d.tdiv 1000000000 = d / 1000000000 :=
      Int.tdiv_eq_ediv (le_of_lt hd) (by norm_num)
    have hmod : d - d / 1000000000 * 1000000000 = d % 1000000000 := by
      rw [Int.emod_def]
      ring
    refine ⟨by simp [convert, hd], htd, by ring, ?_, ?_⟩
    · rw [htd, hmod]
      exact Int.emod_nonneg d (by norm_num)
    · rw [htd, hmod]
      exact Int.emod_lt_of_pos d (by norm_num)

/-- Claim C10: for every Change, the variant accessor matching get_mode
returns non-null and the other five return null, so exactly one of the
six accessors is non-null. -/
theorem change_variant_accessor_exclusive (c : Change) :
    (c.insert.isSome ↔ c.get_mode = Change.Mode.Insert)
    ∧ (c.interrupt.isSome ↔ c.get_mode = Change.Mode.Interrupt)
    ∧ (c.delay.isSome ↔ c.get_mode = Change.Mode.Delay)
    ∧ (c.replace.isSome ↔ c.get_mode = Change.Mode.Replace)
    ∧ (c.erase.isSome ↔ c.get_mode = Change.Mode.Erase)
    ∧ (c.cull.isSome ↔ c.get_mode = Change.Mode.Cull)
    ∧ [c.insert.isSome, c.interrupt.isSome, c.delay.isSome,
        c.replace.isSome, c.erase.isSome, c.cull.isSome].count true = 1 := by
  cases hm : c._pimpl.mode <;>
    simp [Change.insert, Change.interrupt, Change.delay, Change.replace,
      Change.erase, Change.cull, Change.get_mode, hm, List.count_cons]

/-- Claim C5 counterexample: two distinct changes sharing an id admit a
reordering that satisfies everything the std sort call of the Patch
construction guarantees, yet differs from the stable sort of the input,
so stability with respect to insertion order on equal ids is not
guaranteed by the code. -/
theorem patch_sort_stability_counterexample :
    patchConstructionSpec [tieChangeA, tieChangeB] 5
      { changes := [tieChangeB, tieChangeA], latest_version := 5 }
    ∧ Patch.toList { changes := [tieChangeB, tieChangeA], latest_version := 5 }
        ≠ stableSortByChangeId [tieChangeA, tieChangeB] := by
  constructor
  · refine ⟨by decide, ?_, rfl⟩
    show List.Pairwise (fun c1 c2 => c1.id ≤ c2.id) [tieChangeB, tieChangeA]
    decide
  · decide

/-- Claim C5 (amended): iterating a constructed Patch from begin to end
yields the input changes sorted ascending by id — a permutation of the
input in ascending id order always exists and satisfies the
construction — but the order of changes with equal ids is unspecified;
when the ids are pairwise distinct the sorted permutation, and hence the
Patch, is uniquely determined. -/
theorem patch_sorted_unique_by_id (input : List Change) (latest : Nat) :
    patchConstructionSpec input latest
      { changes := stableSortByChangeId input, latest_version := latest }
    ∧ ∀ p1 p2 : Patch,
        input.Pairwise (fun c1 c2 => c1.id ≠ c2.id) →
        patchConstructionSpec input latest p1 →
        patchConstructionSpec input latest p2 →
        p1 = p2 := by
  constructor
  · exact ⟨List.perm_insertionSort _ _, List.sorted_insertionSort _ _, rfl⟩
  · intro p1 p2 hdist h1 h2
    obtain ⟨hp1, hs1, hl1⟩ := h1
    obtain ⟨hp2, hs2, hl2⟩ := h2
    have hd1 : p1.changes.Pairwise (fun c1 c2 => c1.id ≠ c2.id) :=
      (List.Perm.pairwise_iff (fun hxy => Ne.symm hxy) hp1).mpr hdist
    have hd2 : p2.changes.Pairwise (fun c1 c2 => c1.id ≠ c2.id) :=
      (List.Perm.pairwise_iff (fun hxy => Ne.symm hxy) hp2).mpr hdist
    have hlt1 : List.Sorted (fun c1 c2 : Change => c1.id < c2.id) p1.changes :=
      (hs1.and hd1).imp fun hx => Nat.lt_of_le_of_ne hx.1 hx.2
    have hlt2 : List.Sorted (fun c1 c2 : Change => c1.id < c2.id) p2.changes :=
      (hs2.and hd2).imp fun hx => Nat.lt_of_le_of_ne hx.1 hx.2
    have hperm : p1.changes.Perm p2.changes := hp1.trans hp2.symm
    have hc : p1.changes = p2.changes := List.eq_of_perm_of_sorted hperm hlt1 hlt2
    cases p1
    cases p2
    simp only at hc hl1 hl2
    rw [hc, hl1, hl2]

/-- Claim C7 counterexample: a Patch produced by Database::changes can
hand the caller a change whose trajectory payload is in the borrowed
(shallow) form: the relevance walk synthesizes head insertions with
make_insert_ref and changes() wraps them into the Patch without
converting them to the owning form. -/
theorem changes_exposes_borrowed_counterexample :
    databaseChangesSpec [[exEntry1]] none (fun _ => true) 1
      { changes := [Change.Implementation.make_insert_ref (some exTraj1) 1],
        latest_version := 1 }
    ∧ ∃ c ∈ Patch.toList
        { changes := [Change.Implementation.make_insert_ref (some exTraj1) 1],
          latest_version := 1 },
        c.has_borrowed_trajectory = true := by
  constructor
  · refine ⟨by decide, ?_, rfl⟩
    show List.Pairwise (fun c1 c2 => c1.id ≤ c2.id)
      [Change.Implementation.make_insert_ref (some exTraj1) 1]
    decide
  · decide

/-- Claim C7 (amended): the Insert synthesized by the relevance walk for
a relevant head carries the borrowed (shallow) trajectory form and is
appended as-is to the changes handed back to the caller; the owning
(deep) form is what the public make_insert constructor produces, and is
not enforced at the changes() boundary. -/
theorem synthesized_insert_is_borrowed (self : ChangeRelevanceInspector)
    (lineage : List Entry) (idx : Nat) (entry : Entry) (relevant : Entry → Bool)
    (hlen : idx + 1 = lineage.length)
    (hentry : lineage[idx]? = some entry)
    (hafter : self.after_version = none)
    (hrel : relevant entry = true) :
    self.inspect lineage idx relevant =
      { self with relevant_changes := self.relevant_changes ++
          [Change.Implementation.make_insert_ref (some entry.trajectory) entry.version] }
    ∧ (Change.Implementation.make_insert_ref
        (some entry.trajectory) entry.version).has_borrowed_trajectory = true
    ∧ ∀ (t : Option Trajectory) (i : Nat),
        (Change.make_insert t i).has_borrowed_trajectory = false := by
  refine ⟨?_, rfl, fun t i => rfl⟩
  simp only [ChangeRelevanceInspector.inspect, hentry, hafter, Option.any_none]
  rw [if_neg (by omega : ¬ idx + 1 < lineage.length)]
  rw [if_neg (by simp)]
  rw [hrel]
  simp only [if_true]

/-- Witness for C1 on the concrete lineage: with cursor 1 and an
all-accepting predicate, inspecting the head appends the stored changes
of versions 2 and 3 in order. -/
theorem inspect_transmits_history_witness :
    exLineage[2]? = some exEntry3 ∧
    (ChangeRelevanceInspector.mk (some 1) []).inspect exLineage 2 (fun _ => true) =
      { after_version := some 1, relevant_changes := [exChange2, exChange3] } := by
  refine ⟨by decide, ?_⟩
  have h := inspect_transmits_history ⟨some 1, []⟩ exLineage 2 0 exEntry3 exEntry1 1
    (fun _ => true) (by decide) (by decide) rfl (by decide) rfl (by decide) (by decide)
    (by decide) ?hbet rfl
  · rw [h.1]
    decide
  case hbet =>
    intro k hk1 hk2 ek hek
    interval_cases k
    · have hval : exEntry2 = ek :=
        Option.some.inj ((by decide : exLineage[1]? = some exEntry2).symm.trans hek)
      rw [← hval]
      decide
    · have hval : exEntry3 = ek :=
        Option.some.inj ((by decide : exLineage[2]? = some exEntry3).symm.trans hek)
      rw [← hval]
      decide

/-- Witness for C2 on the concrete lineage: with no cursor, inspecting
the relevant head appends exactly one synthesized borrowed Insert with
id 3. -/
theorem inspect_synthesizes_insert_witness :
    exLineage[2]? = some exEntry3 ∧
    (ChangeRelevanceInspector.mk none []).inspect exLineage 2 (fun _ => true) =
      { after_version := none,
        relevant_changes := [Change.Implementation.make_insert_ref (some exTraj3) 3] } := by
  refine ⟨by decide, ?_⟩
  have h := inspect_synthesizes_insert ⟨none, []⟩ exLineage 2 exEntry3 (fun _ => true)
    (by decide) (by decide) rfl (Or.inl rfl)
  rw [h.1]
  decide

/-- Witness for C3 on the concrete lineage: with cursor 1 and a
predicate accepting only versions up to 1, inspecting the now
irrelevant head appends exactly one Erase of the known ancestor's
version 1 tagged with the head's version 3. -/
theorem inspect_irrelevant_head_witness :
    exLineage[2]? = some exEntry3 ∧
    (ChangeRelevanceInspector.mk (some 1) []).inspect exLineage 2
        (fun e => e.version ≤ 1) =
      { after_version := some 1, relevant_changes := [Change.make_erase 1 3] } := by
  refine ⟨by decide, ?_⟩
  have h := (inspect_irrelevant_head ⟨some 1, []⟩ exLineage 2 exEntry3
      (fun e => e.version ≤ 1) (by decide) (by decide) (by decide)).1 1 0 exEntry1 rfl
      (by decide) (by decide) (by decide) ?hbet (by decide)
  · rw [h]
    decide
  case hbet =>
    intro k hk1 hk2 ek hek
    interval_cases k
    · have hval : exEntry2 = ek :=
        Option.some.inj ((by decide : exLineage[1]? = some exEntry2).symm.trans hek)
      rw [← hval]
      decide
    · have hval : exEntry3 = ek :=
        Option.some.inj ((by decide : exLineage[2]? = some exEntry3).symm.trans hek)
      rw [← hval]
      decide

/-- Witness for C8 on the concrete lineage: inspecting the root entry,
which has a successor, leaves the inspector unchanged. -/
theorem inspect_skips_nonhead_or_seen_witness :
    exLineage[0]? = some exEntry1 ∧
    (ChangeRelevanceInspector.mk none []).inspect exLineage 0 (fun _ => true) =
      ChangeRelevanceInspector.mk none [] :=
  ⟨by decide,
    inspect_skips_nonhead_or_seen ⟨none, []⟩ exLineage 0 exEntry1 (fun _ => true)
      (by decide) (Or.inl (by decide))⟩

/-- Witness for C6 on a concrete entry spanning times 0 to 10: the
degenerate window at time 5 accepts it exactly because 0 ≤ 5 ≤ 10. -/
theorem time_window_relevance_spec_witness :
    exEntry1.trajectory.start_time = some 0 ∧
    exEntry1.trajectory.finish_time = some 10 ∧
    (timeWindowRelevant (some 5) (some 5) exEntry1 = true ↔
      (0 : Int) ≤ 5 ∧ (5 : Int) ≤ 10) :=
  ⟨by decide, by decide,
    (time_window_relevance_spec (some 5) (some 5) exEntry1 0 10
      (by decide) (by decide)).2.1 5⟩

/-- Witness for C9 at the concrete count 1500000003: one and a half
seconds plus three nanoseconds splits into sec 1 and nanosec
500000003. -/
theorem convert_time_formula_witness :
    (0 : Int) < 1500000003 ∧ convert 1500000003 = some (1, 500000003) := by
  refine ⟨by decide, ?_⟩
  rw [(convert_time_formula.2 1500000003 (by decide)).1]
  decide

/-- Witness for C5 (amended) on two concrete changes with distinct ids:
the stable sort satisfies the construction, and any two patches
satisfying it coincide. -/
theorem patch_sorted_unique_by_id_witness :
    ([exChange2, exChange1].Pairwise fun c1 c2 => c1.id ≠ c2.id) ∧
    patchConstructionSpec [exChange2, exChange1] 2
      { changes := stableSortByChangeId [exChange2, exChange1], latest_version := 2 } ∧
    Patch.mk [exChange1, exChange2] 2 = Patch.mk [exChange1, exChange2] 2 := by
  refine ⟨by decide, (patch_sorted_unique_by_id [exChange2, exChange1] 2).1, ?_⟩
  refine (patch_sorted_unique_by_id [exChange2, exChange1] 2).2
    (Patch.mk [exChange1, exChange2] 2) (Patch.mk [exChange1, exChange2] 2)
    (by decide) ⟨by decide, ?_, rfl⟩ ⟨by decide, ?_, rfl⟩
  · show List.Pairwise (fun c1 c2 => c1.id ≤ c2.id) [exChange1, exChange2]
    decide
  · show List.Pairwise (fun c1 c2 => c1.id ≤ c2.id) [exChange1, exChange2]
    decide

/-- Witness for C7 (amended) on the concrete head entry: the
synthesized Insert for it is in the borrowed form. -/
theorem synthesized_insert_is_borrowed_witness :
    exLineage[2]? = some exEntry3 ∧
    (Change.Implementation.make_insert_ref
      (some exEntry3.trajectory) exEntry3.version).has_borrowed_trajectory = true :=
  ⟨by decide,
    (synthesized_insert_is_borrowed ⟨none, []⟩ exLineage 2 exEntry3 (fun _ => true)
      (by decide) (by decide) rfl rfl).2.1⟩
